import Mathlib

/-!
Verification of the node-caskdb storage engine (Bitcask-style log-structured
key-value store) against its natural-language specification.

The embedding translates the source files `format.ts` (record codec) and
`disk-store.ts` (log store) into Lean. Byte buffers are `List Nat` (each byte
produced by the encoder is `< 256`); JavaScript strings are modeled by their
UTF-8 byte sequences, so keys and values are also `List Nat`. Fallible
operations (Node `Buffer` range errors, rejected promises) return `Option`.
-/

namespace CaskDB

/-- Fixed record-header size, `HEADER_SIZE = 12` in `format.ts`. -/
def HEADER_SIZE : Nat := 12

/-- Little-endian 4-byte encoding of an unsigned 32-bit integer, as written by
`Buffer.writeUInt32LE`. -/
def u32bytes (n : Nat) : List Nat :=
  [n % 256, n / 2 ^ 8 % 256, n / 2 ^ 16 % 256, n / 2 ^ 24 % 256]

/-- Little-endian 4-byte read at `off`, the value part of `Buffer.readUInt32LE`.
Only meaningful when at least 4 bytes remain at `off`; the range check that
`readUInt32LE` performs lives in `decodeHeader`. -/
def readU32 (b : List Nat) (off : Nat) : Nat :=
  match b.drop off with
  | b0 :: b1 :: b2 :: b3 :: _ => b0 + 2 ^ 8 * b1 + 2 ^ 16 * b2 + 2 ^ 24 * b3
  | _ => 0

/-- Byte range `[s, e)` of a buffer, with the clamping behavior of
`buffer.toString("utf8", s, e)`: out-of-range ends are clamped, an empty
range yields the empty sequence, nothing throws. -/
def slice (b : List Nat) (s e : Nat) : List Nat :=
  (b.drop s).take (e - s)

/-- KeyEntry from `format.ts`: in-memory location of a key's latest record. -/
structure KeyEntry where
  timestamp : Nat
  position : Nat
  size : Nat
deriving DecidableEq, Repr

/-- Record for proofs about logs: one `(timestamp, key, value)` triple. -/
structure LogRecord where
  timestamp : Nat
  key : List Nat
  value : List Nat
deriving DecidableEq, Repr

/-- Field bounds under which the codec succeeds (each field fits in 32 bits). -/
abbrev wfRecord (r : LogRecord) : Prop :=
  r.timestamp < 2 ^ 32 ∧ r.key.length < 2 ^ 32 ∧ r.value.length < 2 ^ 32

/-- `encodeHeader` from `format.ts`: three `writeUInt32LE` calls at offsets
0, 4, 8. `writeUInt32LE` throws a range error unless the value is an integer
in `[0, 2^32 - 1]`, so encoding fails (`none`) when any field is `≥ 2^32`. -/
def encodeHeader (t ks vs : Nat) : Option (List Nat) :=
  if t < 2 ^ 32 ∧ ks < 2 ^ 32 ∧ vs < 2 ^ 32 then
    some (u32bytes t ++ u32bytes ks ++ u32bytes vs)
  else none

/-- `decodeHeader` from `format.ts`: three `readUInt32LE` calls at `off`,
`off + 4`, `off + 8`. `readUInt32LE` throws unless the 4 read bytes are in
range, so the decode fails (`none`) exactly when the buffer holds fewer than
12 bytes from `off` on. -/
def decodeHeader (b : List Nat) (off : Nat) : Option (Nat × Nat × Nat) :=
  if off + HEADER_SIZE ≤ b.length then
    some (readU32 b off, readU32 b (off + 4), readU32 b (off + 8))
  else none

/-- `encodeKV` from `format.ts`: allocates `HEADER_SIZE + kSize + vSize`
bytes, writes the header, then writes key and value bytes contiguously at
offset `HEADER_SIZE`. Fails when `encodeHeader` throws. -/
def encodeKV (t : Nat) (k v : List Nat) : Option (List Nat) :=
  match encodeHeader t k.length v.length with
  | none => none
  | some h => some (h ++ k ++ v)

/-- `decodeKV` from `format.ts`: decodes the header at `off`, then slices the
key at `[HEADER_SIZE, HEADER_SIZE + kSize)` and the value at
`[HEADER_SIZE + kSize, HEADER_SIZE + kSize + vSize)` — fixed positions that
do not involve `off`, exactly as in the source. -/
def decodeKV (b : List Nat) (off : Nat) : Option (Nat × List Nat × List Nat) :=
  match decodeHeader b off with
  | none => none
  | some (t, ks, vs) =>
    some (t, slice b HEADER_SIZE (HEADER_SIZE + ks),
      slice b (HEADER_SIZE + ks) (HEADER_SIZE + ks + vs))

/-- Modelled from the spec: "decode(bytes, offset) reads the 12-byte header at
offset, then slices key_size bytes for the key and the next value_size bytes
for the value", i.e. payload located at `off + HEADER_SIZE`. Used to compare
`decodeKV` with decoding the record actually located at `off`. -/
def decodeKVAtOffset (b : List Nat) (off : Nat) : Option (Nat × List Nat × List Nat) :=
  match decodeHeader b off with
  | none => none
  | some (t, ks, vs) =>
    some (t, slice b (off + HEADER_SIZE) (off + HEADER_SIZE + ks),
      slice b (off + HEADER_SIZE + ks) (off + HEADER_SIZE + ks + vs))

/-- The in-memory index of `disk-store.ts`: a `Map<string, KeyEntry>`, modeled
as an association list with `Map`-equivalent lookup semantics. -/
abbrev KeyDir := List (List Nat × KeyEntry)

/-- `Map.get` on the KeyDir. -/
def mapLookup : KeyDir → List Nat → Option KeyEntry
  | [], _ => none
  | (k', e) :: rest, k => if k' = k then some e else mapLookup rest k

/-- `Map.delete` on the KeyDir. -/
def mapDelete : KeyDir → List Nat → KeyDir
  | [], _ => []
  | (k', e) :: rest, k =>
    if k' = k then mapDelete rest k else (k', e) :: mapDelete rest k

/-- `Map.set` on the KeyDir (insert or overwrite). -/
def mapSet (kd : KeyDir) (k : List Nat) (e : KeyEntry) : KeyDir :=
  (k, e) :: mapDelete kd k

/-- State owned by one `DiskStorage` instance: the log file contents, the
KeyDir, and the `_writePosition` cursor. -/
structure DiskState where
  file : List Nat
  keyDir : KeyDir
  writePosition : Nat
deriving DecidableEq, Repr

/-- `FileHandle.read(buffer, 0, size, pos)` into a zero-filled buffer of
length `size`: the available bytes at `pos` are copied and the rest of the
buffer keeps its zero fill; short reads do not raise (`bytesRead` is simply
smaller, and the source never checks it). -/
def fileRead (file : List Nat) (size pos : Nat) : List Nat :=
  slice file pos (pos + size) ++
    List.replicate (size - (slice file pos (pos + size)).length) 0

/-- The `while` loop of `_initKeyDir`, with an explicit fuel bound on the
number of iterations. Each iteration either fails (a header read past the
buffer end throws, rejecting the open) or consumes `entrySize ≥ HEADER_SIZE`
bytes, so `buffer.length` iterations always suffice; the fuel-exhausted case
is unreachable for the fuel `initKeyDir` passes. -/
def scanGo (buffer : List Nat) : Nat → Nat → KeyDir → Option KeyDir
  | 0, offset, kd => if offset < buffer.length then none else some kd
  | fuel + 1, offset, kd =>
    if offset < buffer.length then
      match decodeHeader buffer offset with
      | none => none
      | some (t, ks, vs) =>
        let entrySize := HEADER_SIZE + ks + vs
        let key := slice buffer (offset + HEADER_SIZE) (offset + HEADER_SIZE + ks)
        let value := slice buffer (offset + HEADER_SIZE + ks)
          (offset + HEADER_SIZE + ks + vs)
        if value = [] ∧ (mapLookup kd key).isSome then
          scanGo buffer fuel (offset + entrySize) (mapDelete kd key)
        else
          scanGo buffer fuel (offset + entrySize) (mapSet kd key ⟨t, offset, entrySize⟩)
    else some kd

/-- `_initKeyDir` from `disk-store.ts`: scan the whole file from offset 0,
deleting a key when a tombstone is read while the key is present, otherwise
inserting a KeyEntry at the current offset. -/
def initKeyDir (buffer : List Nat) : Option KeyDir :=
  scanGo buffer buffer.length 0 []

/-- `DiskStorage(path)` on a file with the given contents: run the recovery
scan. The source initialises `_writePosition` to 0 and never assigns it
afterwards — in particular `_initKeyDir` does not set it to the file length —
so the returned state keeps `writePosition = 0` regardless of the scanned
file's length. -/
def openStore (file : List Nat) : Option DiskState :=
  match initKeyDir file with
  | none => none
  | some kd => some ⟨file, kd, 0⟩

/-- `set` from `disk-store.ts` with the timestamp passed explicitly: encode,
append to the file, then insert a KeyEntry at the pre-write `_writePosition`
and advance the cursor. The KeyDir insert is unconditional — a tombstone
(empty value) is inserted like any other entry. -/
def set (s : DiskState) (ts : Nat) (k v : List Nat) : Option DiskState :=
  match encodeKV ts k v with
  | none => none
  | some data =>
    some ⟨s.file ++ data,
      mapSet s.keyDir k ⟨ts, s.writePosition, data.length⟩,
      s.writePosition + data.length⟩

/-- `get` from `disk-store.ts`: KeyDir lookup; absent keys return
`some none` (undefined, a normal outcome); present keys read `entry.size`
bytes at `entry.position` and decode at offset 0. An outer `none` models a
thrown error during decode. -/
def get (s : DiskState) (k : List Nat) : Option (Option (List Nat)) :=
  match mapLookup s.keyDir k with
  | none => some none
  | some e =>
    match decodeKV (fileRead s.file e.size e.position) 0 with
    | none => none
    | some (_, _, v) => some (some v)

/-- Failure points of `set` after encoding: the `file.write` promise
rejecting (with a prefix of the record possibly written) or the `file.sync`
promise rejecting (record written, durability barrier failed). -/
inductive SetFailure
  | writeFail (bytesWritten : Nat)
  | syncFail

/-- `set` with an explicit outcome for the two awaited file operations:
`none` runs to completion, `some f` rejects at `f`. Returns the state of the
store closure afterwards and whether the call succeeded. Statement order in
the source is write, sync, KeyDir insert, cursor advance, so a rejection
leaves KeyDir and `_writePosition` untouched. -/
def setStep (s : DiskState) (ts : Nat) (k v : List Nat)
    (failAt : Option SetFailure) : DiskState × Bool :=
  match encodeKV ts k v with
  | none => (s, false)
  | some data =>
    match failAt with
    | some (SetFailure.writeFail n) =>
      (⟨s.file ++ data.take n, s.keyDir, s.writePosition⟩, false)
    | some SetFailure.syncFail =>
      (⟨s.file ++ data, s.keyDir, s.writePosition⟩, false)
    | none =>
      (⟨s.file ++ data,
        mapSet s.keyDir k ⟨ts, s.writePosition, data.length⟩,
        s.writePosition + data.length⟩, true)

/-- `encodeRecord`: the bytes one `LogRecord` contributes to the log. -/
def encodeRecord (r : LogRecord) : Option (List Nat) :=
  encodeKV r.timestamp r.key r.value

/-- A log made of consecutive encoded records. -/
def encodeRecs : List LogRecord → Option (List Nat)
  | [] => some []
  | r :: rest =>
    match encodeRecord r, encodeRecs rest with
    | some b, some bs => some (b ++ bs)
    | _, _ => none

/-- Open a store on the encoding of a record list. -/
def openOnRecords (rs : List LogRecord) : Option DiskState :=
  (encodeRecs rs).bind openStore

/-- Ghost description of the recovery scan as a fold over the record list:
same branches as `scanGo`, with the offset tracking each record's position. -/
def scanFold (kd : KeyDir) (off : Nat) : List LogRecord → KeyDir
  | [] => kd
  | r :: rest =>
    let es := HEADER_SIZE + r.key.length + r.value.length
    if r.value = [] ∧ (mapLookup kd r.key).isSome then
      scanFold (mapDelete kd r.key) (off + es) rest
    else
      scanFold (mapSet kd r.key ⟨r.timestamp, off, es⟩) (off + es) rest

/-- Value of the most recent record for a key, folded left over a record
list starting from a given earlier result. -/
def latestFrom (acc : Option (List Nat)) (rs : List LogRecord) (K : List Nat) :
    Option (List Nat) :=
  rs.foldl (fun a r => if r.key = K then some r.value else a) acc

/-- Value of the most recent record for a key in a record list, `none` when
the key never occurs. -/
def latestVal (rs : List LogRecord) (K : List Nat) : Option (List Nat) :=
  latestFrom none rs K

/-- Apply a sequence of `set` operations to a store. -/
def runSets : Option DiskState → List LogRecord → Option DiskState
  | os, [] => os
  | os, r :: rest =>
    runSets (os.bind fun st => set st r.timestamp r.key r.value) rest

theorem u32bytes_length (n : Nat) : (u32bytes n).length = 4 := rfl

theorem readU32_of_drop (b : List Nat) (off n : Nat) (tail : List Nat)
    (h : b.drop off = u32bytes n ++ tail) (hn : n < 2 ^ 32) :
    readU32 b off = n := by
  unfold readU32
  rw [h]
  show n % 256 + 2 ^ 8 * (n / 2 ^ 8 % 256) + 2 ^ 16 * (n / 2 ^ 16 % 256)
      + 2 ^ 24 * (n / 2 ^ 24 % 256) = n
  omega

theorem drop_add (b : List Nat) (off j : Nat) :
    b.drop (off + j) = (b.drop off).drop j := by
  rw [List.drop_drop, Nat.add_comm]

theorem drop4_u32 (n : Nat) (tail : List Nat) :
    (u32bytes n ++ tail).drop 4 = tail := rfl

theorem encodeKV_eq {t : Nat} {k v d : List Nat} (h : encodeKV t k v = some d) :
    d = u32bytes t ++ u32bytes k.length ++ u32bytes v.length ++ k ++ v ∧
      t < 2 ^ 32 ∧ k.length < 2 ^ 32 ∧ v.length < 2 ^ 32 := by
  unfold encodeKV encodeHeader at h
  by_cases hb : t < 2 ^ 32 ∧ k.length < 2 ^ 32 ∧ v.length < 2 ^ 32
  · rw [if_pos hb] at h
    simp only [Option.some.injEq] at h
    refine ⟨?_, hb⟩
    simp [← h, List.append_assoc]
  · rw [if_neg hb] at h
    cases h

theorem encodeKV_length {t : Nat} {k v d : List Nat} (h : encodeKV t k v = some d) :
    d.length = HEADER_SIZE + k.length + v.length := by
  obtain ⟨hd, -⟩ := encodeKV_eq h
  subst hd
  simp [u32bytes, HEADER_SIZE]
  omega

/-- Header fields of a well-placed encoded record decode correctly. -/
theorem decodeHeader_of_drop {b : List Nat} {off : Nat} {t ks vs : Nat}
    {tail : List Nat}
    (h : b.drop off = u32bytes t ++ u32bytes ks ++ u32bytes vs ++ tail)
    (ht : t < 2 ^ 32) (hks : ks < 2 ^ 32) (hvs : vs < 2 ^ 32) :
    decodeHeader b off = some (t, ks, vs) := by
  have hlen : off + HEADER_SIZE ≤ b.length := by
    have := congrArg List.length h
    simp [u32bytes] at this
    have hdl : (b.drop off).length = b.length - off := List.length_drop off b
    simp [HEADER_SIZE]
    omega
  have h4 : b.drop (off + 4) = u32bytes ks ++ (u32bytes vs ++ tail) := by
    rw [drop_add, h]
    simp [List.append_assoc, drop4_u32]
  have h8 : b.drop (off + 8) = u32bytes vs ++ tail := by
    have : (8 : Nat) = 4 + 4 := rfl
    rw [this, ← Nat.add_assoc, drop_add b (off + 4) 4, h4]
    exact drop4_u32 ks _
  unfold decodeHeader
  rw [if_pos hlen]
  rw [readU32_of_drop b off t (u32bytes ks ++ u32bytes vs ++ tail)
      (by rw [h]; simp [List.append_assoc]) ht,
    readU32_of_drop b (off + 4) ks (u32bytes vs ++ tail) h4 hks,
    readU32_of_drop b (off + 8) vs tail h8 hvs]

theorem slice_of_drop {b : List Nat} {off : Nat} {pre post : List Nat}
    (h : b.drop off = pre ++ post) :
    slice b off (off + pre.length) = pre := by
  unfold slice
  rw [h]
  simp

/-- Decoding an encoded record at buffer start returns the original triple. -/
theorem decodeKV_encodeKV {t : Nat} {k v d : List Nat}
    (h : encodeKV t k v = some d) : decodeKV d 0 = some (t, k, v) := by
  obtain ⟨hd, ht, hk, hv⟩ := encodeKV_eq h
  have hdrop : d.drop 0 = u32bytes t ++ u32bytes k.length ++ u32bytes v.length ++ (k ++ v) := by
    simp [hd, List.append_assoc]
  have hkey : d.drop HEADER_SIZE = k ++ v := by
    have : d.drop HEADER_SIZE = (d.drop 0).drop HEADER_SIZE := by simp
    rw [this, hdrop]
    show ((u32bytes t ++ (u32bytes k.length ++ (u32bytes v.length ++ (k ++ v))))).drop 12 = k ++ v
    simp [u32bytes]
  have hslicek : slice d HEADER_SIZE (HEADER_SIZE + k.length) = k :=
    slice_of_drop hkey
  have hval : d.drop (HEADER_SIZE + k.length) = v ++ [] := by
    rw [drop_add, hkey]
    simp
  have hslicev : slice d (HEADER_SIZE + k.length) (HEADER_SIZE + k.length + v.length) = v :=
    slice_of_drop hval
  unfold decodeKV
  rw [decodeHeader_of_drop hdrop ht hk hv]
  show some (t, slice d HEADER_SIZE (HEADER_SIZE + k.length),
    slice d (HEADER_SIZE + k.length) (HEADER_SIZE + k.length + v.length)) = some (t, k, v)
  rw [hslicek, hslicev]

/-- Claim C6: for every valid triple (timestamp below `2^32`, key and value
whose byte lengths fit in 32 bits), decoding the encoding at offset 0 returns
the original triple. -/
theorem C6_encode_decode_roundtrip (t : Nat) (k v : List Nat)
    (ht : t < 2 ^ 32) (hk : k.length < 2 ^ 32) (hv : v.length < 2 ^ 32) :
    ∃ d, encodeKV t k v = some d ∧ decodeKV d 0 = some (t, k, v) := by
  have henc : encodeKV t k v =
      some (u32bytes t ++ u32bytes k.length ++ u32bytes v.length ++ k ++ v) := by
    unfold encodeKV encodeHeader
    rw [if_pos ⟨ht, hk, hv⟩]
  exact ⟨_, henc, decodeKV_encodeKV henc⟩

/-- Witness for C6 at a concrete triple. -/
theorem C6_encode_decode_roundtrip_witness :
    ∃ d, encodeKV 7 [97] [98, 99] = some d ∧ decodeKV d 0 = some (7, [97], [98, 99]) :=
  C6_encode_decode_roundtrip 7 [97] [98, 99] (by decide) (by decide) (by decide)

/-- Claim C7: encoding a header with timestamp, key-size, or value-size equal
to `2^32` fails, while encoding with every field equal to `2^32 - 1`
succeeds. -/
theorem C7_header_bounds :
    encodeHeader (2 ^ 32) 7 7 = none ∧
    encodeHeader 7 (2 ^ 32) 7 = none ∧
    encodeHeader 7 7 (2 ^ 32) = none ∧
    (encodeHeader (2 ^ 32 - 1) (2 ^ 32 - 1) (2 ^ 32 - 1)).isSome = true := by
  refine ⟨?_, ?_, ?_, ?_⟩ <;> decide

/-- Claim C5 (corrected): `decodeKV` fails exactly when the buffer is too
short for the 12-byte header at the offset; when the header is readable but
the declared key/value bytes are missing, the slices are clamped to the
buffer end and the decode succeeds with truncated components. -/
theorem C5_decode_fails_iff_header_truncated (b : List Nat) (off : Nat) :
    decodeKV b off = none ↔ b.length < off + HEADER_SIZE := by
  unfold decodeKV decodeHeader
  by_cases h : off + HEADER_SIZE ≤ b.length
  · rw [if_pos h]
    simp
    omega
  · rw [if_neg h]
    simp
    omega

/-- Counterexample to C5 as stated: a 12-byte buffer whose header declares a
3-byte key provides none of the declared payload bytes, yet `decodeKV`
succeeds (returning clamped empty key and value) instead of failing. -/
theorem C5_counterexample :
    decodeKV [0, 0, 0, 0, 3, 0, 0, 0, 0, 0, 0, 0] 0 = some (0, [], []) ∧
    decodeKV [0, 0, 0, 0, 3, 0, 0, 0, 0, 0, 0, 0] 0 ≠ none := by
  refine ⟨?_, ?_⟩ <;> decide

/-- Claim C10: `decodeKV` reads the three header fields at the given offset
but always extracts key and value from the fixed positions `HEADER_SIZE ..`
of the buffer, ignoring the offset; it agrees with decoding the record
located at the offset when the offset is 0, and disagrees at a nonzero offset
on a concrete two-record buffer. -/
theorem C10_decode_ignores_offset_for_payload :
    (∀ (b : List Nat) (off t ks vs : Nat),
      decodeHeader b off = some (t, ks, vs) →
      decodeKV b off = some (t, slice b HEADER_SIZE (HEADER_SIZE + ks),
        slice b (HEADER_SIZE + ks) (HEADER_SIZE + ks + vs))) ∧
    (∀ b : List Nat, decodeKV b 0 = decodeKVAtOffset b 0) ∧
    decodeKV [1, 0, 0, 0, 1, 0, 0, 0, 1, 0, 0, 0, 10, 20,
        2, 0, 0, 0, 1, 0, 0, 0, 1, 0, 0, 0, 30, 40] 14 ≠
      decodeKVAtOffset [1, 0, 0, 0, 1, 0, 0, 0, 1, 0, 0, 0, 10, 20,
        2, 0, 0, 0, 1, 0, 0, 0, 1, 0, 0, 0, 30, 40] 14 := by
  refine ⟨?_, ?_, ?_⟩
  · intro b off t ks vs h
    unfold decodeKV
    rw [h]
  · intro b
    unfold decodeKV decodeKVAtOffset
    cases h : decodeHeader b 0 with
    | none => rfl
    | some x =>
      obtain ⟨t, ks, vs⟩ := x
      simp
  · decide

theorem fileRead_length (file : List Nat) (size pos : Nat) :
    (fileRead file size pos).length = size := by
  unfold fileRead slice
  simp

theorem decodeKV_isSome_of_len {b : List Nat} (h : HEADER_SIZE ≤ b.length) :
    ∃ t kk vv, decodeKV b 0 = some (t, kk, vv) := by
  unfold decodeKV decodeHeader
  rw [if_pos (by omega : 0 + HEADER_SIZE ≤ b.length)]
  exact ⟨_, _, _, rfl⟩

theorem mapLookup_mapDelete_self (kd : KeyDir) (k : List Nat) :
    mapLookup (mapDelete kd k) k = none := by
  induction kd with
  | nil => rfl
  | cons p rest ih =>
    obtain ⟨k', e⟩ := p
    by_cases h : k' = k <;> simp [mapDelete, mapLookup, h, ih]

theorem mapLookup_mapDelete_ne (kd : KeyDir) {k K : List Nat} (h : k ≠ K) :
    mapLookup (mapDelete kd k) K = mapLookup kd K := by
  induction kd with
  | nil => rfl
  | cons p rest ih =>
    obtain ⟨k', e⟩ := p
    by_cases h' : k' = k
    · subst h'
      simp [mapDelete, mapLookup, h, ih]
    · by_cases h'' : k' = K
      · have hKk : ¬ K = k := fun hh => h hh.symm
        simp [mapDelete, mapLookup, h', h'', hKk, ih]
      · simp [mapDelete, mapLookup, h', h'', ih]

theorem mapLookup_mapSet_self (kd : KeyDir) (k : List Nat) (e : KeyEntry) :
    mapLookup (mapSet kd k e) k = some e := by
  simp [mapSet, mapLookup]

theorem mapLookup_mapSet_ne (kd : KeyDir) {k K : List Nat} (e : KeyEntry)
    (h : k ≠ K) : mapLookup (mapSet kd k e) K = mapLookup kd K := by
  simp [mapSet, mapLookup, h]
  exact mapLookup_mapDelete_ne kd h

theorem drop12_u32 (a b c : Nat) (tail : List Nat) :
    (u32bytes a ++ u32bytes b ++ u32bytes c ++ tail).drop 12 = tail := rfl

theorem encodeRecs_cons {r : LogRecord} {rest : List LogRecord}
    {body : List Nat} (h : encodeRecs (r :: rest) = some body) :
    ∃ b bs, encodeRecord r = some b ∧ encodeRecs rest = some bs ∧
      body = b ++ bs := by
  unfold encodeRecs at h
  cases h1 : encodeRecord r with
  | none => rw [h1] at h; cases h
  | some b =>
    cases h2 : encodeRecs rest with
    | none => rw [h1, h2] at h; cases h
    | some bs =>
      rw [h1, h2] at h
      exact ⟨b, bs, rfl, rfl, (Option.some.inj h).symm⟩

theorem encodeRecs_length_ge {rs : List LogRecord} {body : List Nat}
    (h : encodeRecs rs = some body) : rs.length ≤ body.length := by
  induction rs generalizing body with
  | nil =>
    unfold encodeRecs at h
    cases h
    simp
  | cons r rest ih =>
    obtain ⟨b, bs, h1, h2, rfl⟩ := encodeRecs_cons h
    have hb := encodeKV_length (show encodeKV r.timestamp r.key r.value = some b from h1)
    have hrest := ih h2
    simp only [List.length_append, List.length_cons, HEADER_SIZE] at *
    omega

/-- The recovery loop over a log that is a concatenation of encoded records
computes exactly the record-by-record fold `scanFold`, provided the fuel
covers the record count. -/
theorem scanGo_encodeRecs :
    ∀ (rs : List LogRecord) (fuel : Nat) (kd : KeyDir) (buf : List Nat)
      (off : Nat) (body : List Nat),
      encodeRecs rs = some body → buf.drop off = body → rs.length ≤ fuel →
      scanGo buf fuel off kd = some (scanFold kd off rs) := by
  intro rs
  induction rs with
  | nil =>
    intro fuel kd buf off body henc hdrop hfuel
    unfold encodeRecs at henc
    cases henc
    have hlen : (buf.drop off).length = 0 := by rw [hdrop]; rfl
    rw [List.length_drop] at hlen
    have hnlt : ¬ off < buf.length := by omega
    cases fuel with
    | zero => unfold scanGo scanFold; rw [if_neg hnlt]
    | succ f => unfold scanGo scanFold; rw [if_neg hnlt]
  | cons r rest ih =>
    intro fuel kd buf off body henc hdrop hfuel
    obtain ⟨b, bs, h1, h2, rfl⟩ := encodeRecs_cons henc
    obtain ⟨hb, ht, hk, hvb⟩ :=
      encodeKV_eq (show encodeKV r.timestamp r.key r.value = some b from h1)
    have hblen : b.length = HEADER_SIZE + r.key.length + r.value.length :=
      encodeKV_length (show encodeKV r.timestamp r.key r.value = some b from h1)
    have hdrop' : buf.drop off = u32bytes r.timestamp ++ u32bytes r.key.length ++
        u32bytes r.value.length ++ (r.key ++ (r.value ++ bs)) := by
      rw [hdrop, hb]
      simp [List.append_assoc]
    have hdr : decodeHeader buf off = some (r.timestamp, r.key.length, r.value.length) :=
      decodeHeader_of_drop hdrop' ht hk hvb
    have hlt : off < buf.length := by
      have hlen : (buf.drop off).length = b.length + bs.length := by
        rw [hdrop]; simp
      rw [List.length_drop] at hlen
      simp only [HEADER_SIZE] at hblen
      omega
    have hkeydrop : buf.drop (off + HEADER_SIZE) = r.key ++ (r.value ++ bs) := by
      rw [drop_add, hdrop']
      exact drop12_u32 _ _ _ _
    have hkey : slice buf (off + HEADER_SIZE) (off + HEADER_SIZE + r.key.length) = r.key :=
      slice_of_drop hkeydrop
    have hvaldrop : buf.drop (off + HEADER_SIZE + r.key.length) = r.value ++ bs := by
      rw [drop_add buf (off + HEADER_SIZE) r.key.length, hkeydrop]
      simp
    have hval : slice buf (off + HEADER_SIZE + r.key.length)
        (off + HEADER_SIZE + r.key.length + r.value.length) = r.value :=
      slice_of_drop hvaldrop
    have hrestdrop : buf.drop (off + (HEADER_SIZE + r.key.length + r.value.length)) = bs := by
      rw [drop_add, hdrop, ← hblen]
      simp
    cases fuel with
    | zero => exact absurd hfuel (by rw [List.length_cons]; omega)
    | succ f =>
      have hf : rest.length ≤ f := by rw [List.length_cons] at hfuel; omega
      unfold scanGo
      rw [if_pos hlt, hdr]
      simp only [hkey, hval]
      unfold scanFold
      by_cases hbr : r.value = [] ∧ (mapLookup kd r.key).isSome = true
      · rw [if_pos hbr, if_pos hbr]
        exact ih f (mapDelete kd r.key) buf
          (off + (HEADER_SIZE + r.key.length + r.value.length)) bs h2 hrestdrop hf
      · rw [if_neg hbr, if_neg hbr]
        exact ih f (mapSet kd r.key ⟨r.timestamp, off, HEADER_SIZE + r.key.length + r.value.length⟩)
          buf (off + (HEADER_SIZE + r.key.length + r.value.length)) bs h2 hrestdrop hf

theorem latestFrom_cons (acc : Option (List Nat)) (r : LogRecord)
    (rest : List LogRecord) (K : List Nat) :
    latestFrom acc (r :: rest) K =
      latestFrom (if r.key = K then some r.value else acc) rest K := rfl

/-- Through the recovery fold, a key whose most recent record is non-empty
ends up present in the KeyDir (the link hypothesis carries the property for
records already folded). -/
theorem scanFold_latest :
    ∀ (rs : List LogRecord) (kd : KeyDir) (off : Nat) (K : List Nat)
      (acc : Option (List Nat)),
      (∀ w, acc = some w → w ≠ [] → (mapLookup kd K).isSome = true) →
      ∀ v, latestFrom acc rs K = some v → v ≠ [] →
      (mapLookup (scanFold kd off rs) K).isSome = true := by
  intro rs
  induction rs with
  | nil =>
    intro kd off K acc hlink v hl hv
    exact hlink v hl hv
  | cons r rest ih =>
    intro kd off K acc hlink v hl hv
    rw [latestFrom_cons] at hl
    unfold scanFold
    by_cases hbr : r.value = [] ∧ (mapLookup kd r.key).isSome = true
    · rw [if_pos hbr]
      refine ih _ _ K _ ?_ v hl hv
      intro w hw hwne
      by_cases hkK : r.key = K
      · rw [if_pos hkK] at hw
        obtain ⟨rfl⟩ := Option.some.inj hw
        exact absurd hbr.1 hwne
      · rw [if_neg hkK] at hw
        rw [mapLookup_mapDelete_ne kd hkK]
        exact hlink w hw hwne
    · rw [if_neg hbr]
      refine ih _ _ K _ ?_ v hl hv
      intro w hw hwne
      by_cases hkK : r.key = K
      · subst hkK
        rw [mapLookup_mapSet_self]
        rfl
      · rw [if_neg hkK] at hw
        rw [mapLookup_mapSet_ne kd _ hkK]
        exact hlink w hw hwne

theorem runSets_none (ops : List LogRecord) : runSets none ops = none := by
  induction ops with
  | nil => rfl
  | cons r rest ih => simpa [runSets] using ih

/-- Through a sequence of in-session `set` calls, a key whose most recent
record is non-empty stays present in the KeyDir. -/
theorem runSets_latest :
    ∀ (ops : List LogRecord) (st s : DiskState) (K : List Nat)
      (acc : Option (List Nat)),
      runSets (some st) ops = some s →
      (∀ w, acc = some w → w ≠ [] → (mapLookup st.keyDir K).isSome = true) →
      ∀ v, latestFrom acc ops K = some v → v ≠ [] →
      (mapLookup s.keyDir K).isSome = true := by
  intro ops
  induction ops with
  | nil =>
    intro st s K acc hrun hlink v hl hv
    obtain ⟨rfl⟩ := Option.some.inj hrun
    exact hlink v hl hv
  | cons r rest ih =>
    intro st s K acc hrun hlink v hl hv
    rw [latestFrom_cons] at hl
    unfold runSets at hrun
    rw [show ((some st).bind fun st => set st r.timestamp r.key r.value) =
        set st r.timestamp r.key r.value from rfl] at hrun
    cases hset : set st r.timestamp r.key r.value with
    | none => rw [hset, runSets_none] at hrun; cases hrun
    | some st1 =>
      rw [hset] at hrun
      refine ih st1 s K _ hrun ?_ v hl hv
      intro w hw hwne
      unfold set at hset
      cases henc : encodeKV r.timestamp r.key r.value with
      | none => rw [henc] at hset; cases hset
      | some data =>
        rw [henc] at hset
        obtain ⟨rfl⟩ := Option.some.inj hset
        by_cases hkK : r.key = K
        · subst hkK
          rw [mapLookup_mapSet_self]
          rfl
        · rw [if_neg hkK] at hw
          rw [mapLookup_mapSet_ne _ _ hkK]
          exact hlink w hw hwne

theorem scanFold_nil (kd : KeyDir) (off : Nat) : scanFold kd off [] = kd := rfl

theorem scanFold_cons (kd : KeyDir) (off : Nat) (r : LogRecord)
    (rest : List LogRecord) :
    scanFold kd off (r :: rest) =
      if r.value = [] ∧ (mapLookup kd r.key).isSome then
        scanFold (mapDelete kd r.key)
          (off + (HEADER_SIZE + r.key.length + r.value.length)) rest
      else
        scanFold (mapSet kd r.key
            ⟨r.timestamp, off, HEADER_SIZE + r.key.length + r.value.length⟩)
          (off + (HEADER_SIZE + r.key.length + r.value.length)) rest := rfl

theorem fileRead_append_exact (a b : List Nat) :
    fileRead (a ++ b) b.length a.length = b := by
  unfold fileRead slice
  have h2 : a.length + b.length - a.length = b.length := by omega
  rw [h2, List.drop_left, List.take_length]
  simp

/-- Claim C1 (amended): on a fresh store, after `put(k, v)` with non-empty
`v` followed by the tombstone `put(k, "")`, within the same session the key
is still present in the KeyDir (pointing at the tombstone record) and get
returns the empty value, not absent; after a close/reopen cycle the recovery
scan removes the key and get returns absent. -/
theorem C1_tombstone_in_session_empty_after_reopen_absent (t1 t2 : Nat)
    (k v : List Nat) (s1 s2 : DiskState) (hv : v ≠ [])
    (h1 : set ⟨[], [], 0⟩ t1 k v = some s1)
    (h2 : set s1 t2 k [] = some s2) :
    get s2 k = some (some []) ∧
    mapLookup s2.keyDir k ≠ none ∧
    ∃ s3, openStore s2.file = some s3 ∧ get s3 k = some none := by
  unfold set at h1
  cases henc1 : encodeKV t1 k v with
  | none => rw [henc1] at h1; cases h1
  | some d1 =>
    rw [henc1] at h1
    obtain ⟨rfl⟩ := Option.some.inj h1
    unfold set at h2
    cases henc2 : encodeKV t2 k [] with
    | none => rw [henc2] at h2; cases h2
    | some d2 =>
      rw [henc2] at h2
      obtain ⟨rfl⟩ := Option.some.inj h2
      have hd1len := encodeKV_length henc1
      have hd2len := encodeKV_length henc2
      have hencRecs : encodeRecs [⟨t1, k, v⟩, ⟨t2, k, []⟩] =
          some (([] ++ d1) ++ d2) := by
        simp only [encodeRecs, encodeRecord, henc1, henc2]
        simp
      have hscan : initKeyDir (([] ++ d1) ++ d2) =
          some (scanFold [] 0 [⟨t1, k, v⟩, ⟨t2, k, []⟩]) := by
        unfold initKeyDir
        refine scanGo_encodeRecs [⟨t1, k, v⟩, ⟨t2, k, []⟩] _ [] _ 0 _
          hencRecs (by simp) ?_
        simp only [List.length_append, List.length_cons, List.length_nil,
          HEADER_SIZE] at *
        omega
      have hfold : scanFold [] 0 [⟨t1, k, v⟩, ⟨t2, k, []⟩] = [] := by
        rw [scanFold_cons]
        rw [if_neg (fun hc => hv hc.1)]
        rw [scanFold_cons]
        rw [if_pos ⟨rfl, by rw [mapLookup_mapSet_self]; rfl⟩]
        rw [scanFold_nil]
        simp [mapSet, mapDelete]
      refine ⟨?_, ?_, ⟨([] ++ d1) ++ d2, [], 0⟩, ?_, ?_⟩
      · simp only [get, mapLookup_mapSet_self, List.nil_append, Nat.zero_add,
          fileRead_append_exact, decodeKV_encodeKV henc2]
      · show mapLookup (mapSet _ k _) k ≠ none
        rw [mapLookup_mapSet_self]
        simp
      · show openStore (([] ++ d1) ++ d2) = _
        unfold openStore
        rw [hscan, hfold]
      · simp [get, mapLookup]

/-- Witness for C1: the concrete put/tombstone pair on key 97. -/
theorem C1_tombstone_witness :
    [98] ≠ ([] : List Nat) ∧
    set ⟨[], [], 0⟩ 0 [97] [98] =
      some ⟨[0, 0, 0, 0, 1, 0, 0, 0, 1, 0, 0, 0, 97, 98],
        [([97], ⟨0, 0, 14⟩)], 14⟩ ∧
    set ⟨[0, 0, 0, 0, 1, 0, 0, 0, 1, 0, 0, 0, 97, 98],
        [([97], ⟨0, 0, 14⟩)], 14⟩ 1 [97] [] =
      some ⟨[0, 0, 0, 0, 1, 0, 0, 0, 1, 0, 0, 0, 97, 98,
        1, 0, 0, 0, 1, 0, 0, 0, 0, 0, 0, 0, 97],
        [([97], ⟨1, 14, 13⟩)], 27⟩ ∧
    (get ⟨[0, 0, 0, 0, 1, 0, 0, 0, 1, 0, 0, 0, 97, 98,
        1, 0, 0, 0, 1, 0, 0, 0, 0, 0, 0, 0, 97],
        [([97], ⟨1, 14, 13⟩)], 27⟩ [97] = some (some []) ∧
      mapLookup (⟨[0, 0, 0, 0, 1, 0, 0, 0, 1, 0, 0, 0, 97, 98,
        1, 0, 0, 0, 1, 0, 0, 0, 0, 0, 0, 0, 97],
        [([97], ⟨1, 14, 13⟩)], 27⟩ : DiskState).keyDir [97] ≠ none ∧
      ∃ s3, openStore (⟨[0, 0, 0, 0, 1, 0, 0, 0, 1, 0, 0, 0, 97, 98,
        1, 0, 0, 0, 1, 0, 0, 0, 0, 0, 0, 0, 97],
        [([97], ⟨1, 14, 13⟩)], 27⟩ : DiskState).file = some s3 ∧
        get s3 [97] = some none) :=
  ⟨by decide, by decide, by decide,
    C1_tombstone_in_session_empty_after_reopen_absent 0 1 [97] [98]
      ⟨[0, 0, 0, 0, 1, 0, 0, 0, 1, 0, 0, 0, 97, 98], [([97], ⟨0, 0, 14⟩)], 14⟩
      ⟨[0, 0, 0, 0, 1, 0, 0, 0, 1, 0, 0, 0, 97, 98,
        1, 0, 0, 0, 1, 0, 0, 0, 0, 0, 0, 0, 97], [([97], ⟨1, 14, 13⟩)], 27⟩
      (by decide) (by decide) (by decide)⟩

/-- Claim C2 (amended): at every reachable state — open's recovery scan on a
log of encoded records followed by any sequence of `set` operations — a key
whose most recent record in the log (recovery records then session records,
in offset order) has a non-empty value is present in the KeyDir. The converse
direction of the claimed iff is false (see the counterexample): tombstones
encountered for an absent key during recovery, and every in-session
tombstone put, leave the key present. -/
theorem C2_latest_nonempty_implies_in_keydir (rs ops : List LogRecord)
    (K v : List Nat) (s : DiskState)
    (hrun : runSets (openOnRecords rs) ops = some s)
    (hlatest : latestVal (rs ++ ops) K = some v) (hv : v ≠ []) :
    (mapLookup s.keyDir K).isSome = true := by
  cases hopen : openOnRecords rs with
  | none => rw [hopen, runSets_none] at hrun; cases hrun
  | some s0 =>
    rw [hopen] at hrun
    unfold openOnRecords at hopen
    cases henc : encodeRecs rs with
    | none => rw [henc] at hopen; cases hopen
    | some body =>
      rw [henc] at hopen
      simp only [Option.bind] at hopen
      unfold openStore at hopen
      cases hinit : initKeyDir body with
      | none => rw [hinit] at hopen; cases hopen
      | some kd0 =>
        rw [hinit] at hopen
        obtain ⟨rfl⟩ := Option.some.inj hopen
        have hscan : scanGo body body.length 0 [] = some (scanFold [] 0 rs) :=
          scanGo_encodeRecs rs body.length [] body 0 body henc (by simp)
            (encodeRecs_length_ge henc)
        have hkd0 : kd0 = scanFold [] 0 rs := by
          unfold initKeyDir at hinit
          rw [hscan] at hinit
          exact (Option.some.inj hinit).symm
        have hsplit : latestFrom (latestVal rs K) ops K = some v := by
          unfold latestVal latestFrom at hlatest ⊢
          rw [List.foldl_append] at hlatest
          exact hlatest
        refine runSets_latest ops ⟨body, kd0, 0⟩ s K (latestVal rs K) hrun ?_ v hsplit hv
        intro w hw hwne
        show (mapLookup kd0 K).isSome = true
        rw [hkd0]
        exact scanFold_latest rs [] 0 K none (by intro w' hw'; cases hw') w hw hwne

/-- Witness for C2: a one-record log, no session writes, concrete key. -/
theorem C2_latest_nonempty_implies_in_keydir_witness :
    runSets (openOnRecords [⟨0, [97], [98]⟩]) [] =
      some ⟨[0, 0, 0, 0, 1, 0, 0, 0, 1, 0, 0, 0, 97, 98],
        [([97], ⟨0, 0, 14⟩)], 0⟩ ∧
    latestVal ([⟨0, [97], [98]⟩] ++ []) [97] = some [98] ∧
    [98] ≠ ([] : List Nat) ∧
    (mapLookup (⟨[0, 0, 0, 0, 1, 0, 0, 0, 1, 0, 0, 0, 97, 98],
        [([97], ⟨0, 0, 14⟩)], 0⟩ : DiskState).keyDir [97]).isSome = true :=
  ⟨by decide, by decide, by decide,
    C2_latest_nonempty_implies_in_keydir [⟨0, [97], [98]⟩] [] [97] [98]
      ⟨[0, 0, 0, 0, 1, 0, 0, 0, 1, 0, 0, 0, 97, 98], [([97], ⟨0, 0, 14⟩)], 0⟩
      (by decide) (by decide) (by decide)⟩

/-- Claim C9: `set` never updates the KeyDir or the write cursor before the
append and the flush succeed — any failure before completion leaves both
unchanged. -/
theorem C9_set_failure_atomicity (s : DiskState) (ts : Nat) (k v : List Nat)
    (failAt : Option SetFailure)
    (h : (setStep s ts k v failAt).2 = false) :
    (setStep s ts k v failAt).1.keyDir = s.keyDir ∧
      (setStep s ts k v failAt).1.writePosition = s.writePosition := by
  unfold setStep
  cases henc : encodeKV ts k v with
  | none => exact ⟨rfl, rfl⟩
  | some data =>
    cases failAt with
    | none => simp [setStep, henc] at h
    | some f => cases f <;> exact ⟨rfl, rfl⟩

/-- Witness for C9: a concrete `set` whose flush fails leaves the KeyDir and
cursor of the concrete store unchanged. -/
theorem C9_set_failure_atomicity_witness :
    (setStep ⟨[], [], 0⟩ 0 [97] [98] (some SetFailure.syncFail)).2 = false ∧
    ((setStep ⟨[], [], 0⟩ 0 [97] [98] (some SetFailure.syncFail)).1.keyDir = [] ∧
      (setStep ⟨[], [], 0⟩ 0 [97] [98] (some SetFailure.syncFail)).1.writePosition = 0) :=
  ⟨by decide, C9_set_failure_atomicity ⟨[], [], 0⟩ 0 [97] [98]
    (some SetFailure.syncFail) (by decide)⟩

/-- Claim C3 (code bug): after `open` recovers a 15-byte log, the store's
`_writePosition` is 0, not the file length 15 — the source initialises the
cursor to 0 and the recovery scan never assigns it. -/
theorem C3_write_position_not_set_after_scan :
    Option.map (fun s => (s.writePosition, s.file.length))
      (openOnRecords [⟨5, [97], [120, 120]⟩]) = some (0, 15) ∧
    (0 : Nat) ≠ 15 := by
  refine ⟨?_, ?_⟩ <;> decide

/-- Claim C8 (code bug): reopening a non-empty log and then putting a fresh
key records its KeyEntry at the stale cursor 0, so the following get returns
bytes of the old first record (value 120, `"x"`) instead of the value just
written (121, `"y"`). -/
theorem C8_put_get_after_reopen_returns_stale_bytes :
    (((openOnRecords [⟨5, [97], [120, 120]⟩]).bind fun s =>
        set s 7 [98] [121]).bind fun s => get s [98]) = some (some [120]) ∧
    (some (some [120]) : Option (Option (List Nat))) ≠ some (some [121]) := by
  refine ⟨?_, ?_⟩ <;> decide

/-- Counterexample to C1 as stated: on a fresh store, put then tombstone-put
of key 97 leaves the key in the KeyDir pointing at the tombstone record, and
get returns the empty value rather than absent in the same session. -/
theorem C1_counterexample :
    set ⟨[], [], 0⟩ 0 [97] [98] =
      some ⟨[0, 0, 0, 0, 1, 0, 0, 0, 1, 0, 0, 0, 97, 98],
        [([97], ⟨0, 0, 14⟩)], 14⟩ ∧
    set ⟨[0, 0, 0, 0, 1, 0, 0, 0, 1, 0, 0, 0, 97, 98],
        [([97], ⟨0, 0, 14⟩)], 14⟩ 1 [97] [] =
      some ⟨[0, 0, 0, 0, 1, 0, 0, 0, 1, 0, 0, 0, 97, 98,
        1, 0, 0, 0, 1, 0, 0, 0, 0, 0, 0, 0, 97],
        [([97], ⟨1, 14, 13⟩)], 27⟩ ∧
    get ⟨[0, 0, 0, 0, 1, 0, 0, 0, 1, 0, 0, 0, 97, 98,
        1, 0, 0, 0, 1, 0, 0, 0, 0, 0, 0, 0, 97],
        [([97], ⟨1, 14, 13⟩)], 27⟩ [97] = some (some []) ∧
    get ⟨[0, 0, 0, 0, 1, 0, 0, 0, 1, 0, 0, 0, 97, 98,
        1, 0, 0, 0, 1, 0, 0, 0, 0, 0, 0, 0, 97],
        [([97], ⟨1, 14, 13⟩)], 27⟩ [97] ≠ some none := by
  refine ⟨?_, ?_, ?_, ?_⟩ <;> decide

/-- Counterexample to C2 as stated: recovering a log whose only record for
key 97 is a tombstone leaves the key in the KeyDir (the scan's tombstone
branch requires the key to be present, otherwise it falls through to the
insert), violating the claimed iff. -/
theorem C2_counterexample :
    openOnRecords [⟨0, [97], []⟩] =
      some ⟨[0, 0, 0, 0, 1, 0, 0, 0, 0, 0, 0, 0, 97],
        [([97], ⟨0, 0, 13⟩)], 0⟩ ∧
    latestVal [⟨0, [97], []⟩] [97] = some [] ∧
    (mapLookup [([97], (⟨0, 0, 13⟩ : KeyEntry))] [97]).isSome = true := by
  refine ⟨?_, ?_, ?_⟩ <;> decide

/-- Counterexample to C4 as stated: a store whose file was externally
truncated to empty after the index was built; get on the indexed key reads
only zero bytes, decodes them, and returns the empty value — no IOError,
and not absent either. -/
theorem C4_counterexample :
    get ⟨[], [([107], ⟨5, 0, 15⟩)], 0⟩ [107] = some (some []) ∧
    get ⟨[], [([107], ⟨5, 0, 15⟩)], 0⟩ [107] ≠ none ∧
    get ⟨[], [([107], ⟨5, 0, 15⟩)], 0⟩ [107] ≠ some none := by
  refine ⟨?_, ?_, ?_⟩ <;> decide

/-- Claim C4 (amended): when fewer than `entry.size` bytes are available the
read buffer is zero-padded and get still returns a (possibly truncated or
empty) value: for every state and key whose entry has `size ≥ HEADER_SIZE`,
get succeeds with some value, whatever the file contents. -/
theorem C4_short_read_returns_value (s : DiskState) (k : List Nat)
    (e : KeyEntry) (hl : mapLookup s.keyDir k = some e)
    (hsz : HEADER_SIZE ≤ e.size) :
    ∃ v, get s k = some (some v) := by
  obtain ⟨t, kk, vv, hde⟩ :=
    decodeKV_isSome_of_len (b := fileRead s.file e.size e.position)
      (by rw [fileRead_length]; exact hsz)
  refine ⟨vv, ?_⟩
  unfold get
  rw [hl]
  show (match decodeKV (fileRead s.file e.size e.position) 0 with
    | none => none
    | some (_, _, v) => some (some v)) = some (some vv)
  rw [hde]

/-- Witness for C4 at the truncated concrete store. -/
theorem C4_short_read_returns_value_witness :
    mapLookup [([107], (⟨5, 0, 15⟩ : KeyEntry))] [107] = some ⟨5, 0, 15⟩ ∧
    HEADER_SIZE ≤ 15 ∧
    ∃ v, get ⟨[], [([107], ⟨5, 0, 15⟩)], 0⟩ [107] = some (some v) :=
  ⟨by decide, by decide,
    C4_short_read_returns_value ⟨[], [([107], ⟨5, 0, 15⟩)], 0⟩ [107]
      ⟨5, 0, 15⟩ (by decide) (by decide)⟩

/-- Witness for C10: the first component applied at a concrete buffer and
nonzero offset. -/
theorem C10_decode_ignores_offset_for_payload_witness :
    decodeHeader [9, 9, 1, 0, 0, 0, 1, 0, 0, 0, 1, 0, 0, 0, 50, 60] 2 =
      some (1, 1, 1) ∧
    decodeKV [9, 9, 1, 0, 0, 0, 1, 0, 0, 0, 1, 0, 0, 0, 50, 60] 2 =
      some (1, slice [9, 9, 1, 0, 0, 0, 1, 0, 0, 0, 1, 0, 0, 0, 50, 60] HEADER_SIZE (HEADER_SIZE + 1),
        slice [9, 9, 1, 0, 0, 0, 1, 0, 0, 0, 1, 0, 0, 0, 50, 60] (HEADER_SIZE + 1) (HEADER_SIZE + 1 + 1)) :=
  ⟨by decide,
    C10_decode_ignores_offset_for_payload.1
      [9, 9, 1, 0, 0, 0, 1, 0, 0, 0, 1, 0, 0, 0, 50, 60] 2 1 1 1 (by decide)⟩

end CaskDB
